import Mathlib

/-!
Shallow embedding of the `dbm-project-health` repository: an Express server
(`src/server.js`) over a PostgreSQL table `medical_records` (`src/db-setup.sql`),
plus the browser client (`src/unnamed/part_000`).

The store is modelled as a list of rows plus the SERIAL counter.  Each HTTP
handler of `server.js` becomes a pure function from a request body and a store
to a result (carrying the HTTP status) and the successor store.  Dates travel
as the ISO `YYYY-MM-DD` strings the system uses throughout.
-/

namespace DBM

/-- One row of the `medical_records` table of `db-setup.sql`: SERIAL id, six
user fields (`condition` nullable) and the two timestamps. -/
structure MedicalRecord where
  id : Nat
  medicine : String
  dosage : String
  duration : String
  startDate : String
  endDate : String
  condition : Option String
  createdAt : Nat
  updatedAt : Nat
  deriving DecidableEq, Repr

/-- The table plus the state of its SERIAL primary-key sequence. -/
structure Store where
  rows : List MedicalRecord
  nextId : Nat
  deriving DecidableEq, Repr

def digitVal (c : Char) : Nat := c.toNat - 48

def isLeapYear (y : Nat) : Bool :=
  y % 4 == 0 && (y % 100 != 0 || y % 400 == 0)

def daysInMonth (y m : Nat) : Nat :=
  if m == 2 then (if isLeapYear y then 29 else 28)
  else if m == 4 || m == 6 || m == 9 || m == 11 then 30
  else 31

/-- Parsing of the ISO `YYYY-MM-DD` date strings the application exchanges.
On this format both `new Date(...)` in the handlers (ECMAScript date-time
string format, date-only) and the coercion of a bound text parameter into the
`DATE` columns of `db-setup.sql` accept exactly the well-formed calendar dates
and reject malformed text.  The returned key `10000*y + 100*m + d` is ordered
exactly as the calendar dates (and as the ECMAScript time value). -/
def parseIsoDate (s : String) : Option Nat :=
  match s.toList with
  | [y1, y2, y3, y4, h1, m1, m2, h2, d1, d2] =>
    if y1.isDigit && y2.isDigit && y3.isDigit && y4.isDigit &&
       h1 == '-' && m1.isDigit && m2.isDigit && h2 == '-' &&
       d1.isDigit && d2.isDigit then
      let y := 1000 * digitVal y1 + 100 * digitVal y2 + 10 * digitVal y3 + digitVal y4
      let m := 10 * digitVal m1 + digitVal m2
      let d := 10 * digitVal d1 + digitVal d2
      if 1 ≤ m && m ≤ 12 && 1 ≤ d && d ≤ daysInMonth y m then
        some (10000 * y + 100 * m + d)
      else none
    else none
  | _ => none

/-- A date string the store's `DATE` columns accept. -/
def validDate (s : String) : Bool := (parseIsoDate s).isSome

/-- The check `new Date(startDate) > new Date(endDate)` of `server.js` line 102: an
invalid date yields `NaN`, and every comparison involving `NaN` is false. -/
def jsDateGt (a b : String) : Bool :=
  match parseIsoDate a, parseIsoDate b with
  | some x, some y => x > y
  | _, _ => false

/-- A JSON request body as destructured by the POST/PUT handlers: each field
is absent or a string. -/
structure RequestBody where
  medicine : Option String
  dosage : Option String
  duration : Option String
  startDate : Option String
  endDate : Option String
  condition : Option String
  deriving DecidableEq, Repr

/-- JavaScript falsiness of `req.body.x` for an absent-or-string field:
`undefined` and `""` are falsy. -/
def falsy : Option String → Bool
  | none => true
  | some s => s.isEmpty

/-- The test `!medicine || !dosage || !duration || !startDate || !endDate`
(`server.js` lines 97 and 126). -/
def requiredMissing (b : RequestBody) : Bool :=
  falsy b.medicine || falsy b.dosage || falsy b.duration ||
  falsy b.startDate || falsy b.endDate

/-- The expression `condition || null` (`server.js` lines 111 and 137): absent or empty
is stored as NULL. -/
def normCondition : Option String → Option String
  | none => none
  | some s => if s.isEmpty then none else some s

def reqField (f : Option String) : String := f.getD ""

/-- Outcome of the POST handler, with its HTTP status. -/
inductive PostResult where
  | created (record : MedicalRecord)
  | badRequest (msg : String)
  | storeError
  deriving DecidableEq, Repr

def PostResult.status : PostResult → Nat
  | .created _ => 201
  | .badRequest _ => 400
  | .storeError => 500

/-- Outcome of the PUT handler, with its HTTP status. -/
inductive PutResult where
  | updated (record : MedicalRecord)
  | badRequest (msg : String)
  | notFound
  | storeError
  deriving DecidableEq, Repr

def PutResult.status : PutResult → Nat
  | .updated _ => 200
  | .badRequest _ => 400
  | .notFound => 404
  | .storeError => 500

/-- Outcome of the DELETE handler, with its HTTP status. -/
inductive DeleteResult where
  | deleted
  | notFound
  deriving DecidableEq, Repr

def DeleteResult.status : DeleteResult → Nat
  | .deleted => 200
  | .notFound => 404

/-- Handler `GET /api/records/:id` (`server.js` lines 74-90): `SELECT * FROM
medical_records WHERE id = $1`; an empty row set is answered with 404. -/
def getById (s : Store) (i : Nat) : Option MedicalRecord :=
  s.rows.find? (fun r => r.id == i)

/-- The row the INSERT of the POST handler produces: the SERIAL id, the six
user fields (`condition || null`), and the two `CURRENT_TIMESTAMP` defaults
of `db-setup.sql`. -/
def newRecord (s : Store) (b : RequestBody) (now : Nat) : MedicalRecord :=
  { id := s.nextId
    medicine := reqField b.medicine
    dosage := reqField b.dosage
    duration := reqField b.duration
    startDate := reqField b.startDate
    endDate := reqField b.endDate
    condition := normCondition b.condition
    createdAt := now
    updatedAt := now }

/-- Handler `POST /api/records` (`server.js` lines 93-119): presence validation,
date-order validation with `new Date` comparison, then the INSERT with
`condition || null`; binding malformed text into a `DATE` column makes the
query fail, which the handler answers with 500. -/
def postRecord (s : Store) (b : RequestBody) (now : Nat) : PostResult × Store :=
  if requiredMissing b then
    (.badRequest ("All required fields must be provided"), s)
  else if jsDateGt (reqField b.startDate) (reqField b.endDate) then
    (.badRequest ("Start date cannot be after end date"), s)
  else if validDate (reqField b.startDate) && validDate (reqField b.endDate) then
    (.created (newRecord s b now),
     { rows := s.rows ++ [newRecord s b now], nextId := s.nextId + 1 })
  else
    (.storeError, s)

/-- The effect of the UPDATE statement of `server.js` lines 131-138 on one
matched row, together with the `updated_at` refresh performed by the trigger
`update_medical_records_updated_at` of `db-setup.sql`: the six user fields are
replaced, `id` and `created_at` are not touched. -/
def updateFields (r : MedicalRecord) (b : RequestBody) (now : Nat) : MedicalRecord :=
  { r with
    medicine := reqField b.medicine
    dosage := reqField b.dosage
    duration := reqField b.duration
    startDate := reqField b.startDate
    endDate := reqField b.endDate
    condition := normCondition b.condition
    updatedAt := now }

/-- Handler `PUT /api/records/:id` (`server.js` lines 122-149): presence validation
only (no date-order check), then the UPDATE; malformed date parameters fail at
binding time (500), an empty `RETURNING` row set is answered with 404. -/
def putRecord (s : Store) (i : Nat) (b : RequestBody) (now : Nat) : PutResult × Store :=
  if requiredMissing b then
    (.badRequest ("All required fields must be provided"), s)
  else if validDate (reqField b.startDate) && validDate (reqField b.endDate) then
    match s.rows.find? (fun r => r.id == i) with
    | none => (.notFound, s)
    | some r0 =>
      (.updated (updateFields r0 b now),
       { s with rows := s.rows.map (fun r => if r.id == i then updateFields r b now else r) })
  else
    (.storeError, s)

/-- Handler `DELETE /api/records/:id` (`server.js` lines 152-168): `DELETE ... WHERE
id = $1 RETURNING *`; an empty row set is answered with 404. -/
def deleteRecord (s : Store) (i : Nat) : DeleteResult × Store :=
  if s.rows.any (fun r => r.id == i) then
    (.deleted, { s with rows := s.rows.filter (fun r => r.id != i) })
  else
    (.notFound, s)

/-- Lexicographic order on character lists, used to compare the ISO date
texts; on the fixed-width `YYYY-MM-DD` format it agrees with the calendar
order of the `DATE` values. -/
def charListLe : List Char → List Char → Bool
  | [], _ => true
  | _ :: _, [] => false
  | a :: as, b :: bs => if a = b then charListLe as bs else decide (a < b)

def strLe (a b : String) : Bool := charListLe a.toList b.toList

/-- The clause `ORDER BY start_date DESC` as a Boolean comparison: `a` may come before
`b` when `b.startDate ≤ a.startDate`. -/
def startDateDesc (a b : MedicalRecord) : Bool := strLe b.startDate a.startDate

def insertByDate (r : MedicalRecord) : List MedicalRecord → List MedicalRecord
  | [] => [r]
  | q :: qs => if startDateDesc r q then r :: q :: qs else q :: insertByDate r qs

/-- The `ORDER BY start_date DESC` clause shared by the list and search
queries of `server.js`. -/
def sortByDateDesc : List MedicalRecord → List MedicalRecord
  | [] => []
  | r :: rs => insertByDate r (sortByDateDesc rs)

/-- Handler `GET /api/records` (`server.js` lines 61-71): `SELECT * FROM
medical_records ORDER BY start_date DESC`, the whole table, unpaginated. -/
def listAll (s : Store) : List MedicalRecord :=
  sortByDateDesc s.rows

/-- Lower-casing of a string's characters, as the `ILIKE` operator and the
JavaScript `toLowerCase` apply it to the basic latin letters. -/
def lowerList (s : String) : List Char := s.toList.map Char.toLower

/-- Does `f` hold of some suffix of the list (the list itself included)? -/
def anySuffix (f : List Char → Bool) : List Char → Bool
  | [] => f []
  | c :: s => f (c :: s) || anySuffix f s

/-- Continue matching after consuming one arbitrary subject character
(the `_` wildcard). -/
def matchOne (k : List Char → Bool) : List Char → Bool
  | [] => false
  | _ :: s => k s

/-- Continue matching after consuming one subject character that must equal
the literal pattern character `q`. -/
def matchLit (q : Char) (k : List Char → Bool) : List Char → Bool
  | [] => false
  | c :: s => decide (q = c) && k s

/-- SQL `LIKE` pattern matching over characters: `%` matches any sequence,
`_` matches one character, a backslash escapes the following pattern
character, any other character matches itself. -/
def likeMatch : List Char → List Char → Bool
  | [] => fun s => s.isEmpty
  | '%' :: ps => anySuffix (likeMatch ps)
  | '_' :: ps => matchOne (likeMatch ps)
  | '\\' :: [] => fun _ => false
  | '\\' :: q :: ps => matchLit q (likeMatch ps)
  | p :: ps => matchLit p (likeMatch ps)

/-- Clause `field ILIKE '%' || term || '%'`: case-insensitive `LIKE`. -/
def ilikeContains (hay term : String) : Bool :=
  likeMatch ('%' :: (lowerList term ++ ['%'])) (lowerList hay)

/-- Clause `start_date::text LIKE '%' || term || '%'`: case-sensitive `LIKE`. -/
def likeContains (hay term : String) : Bool :=
  likeMatch ('%' :: (term.toList ++ ['%'])) hay.toList

/-- The WHERE clause of `GET /api/records/search/:term` (`server.js` lines
171-190): `medicine ILIKE $1 OR dosage ILIKE $1 OR condition ILIKE $1 OR
start_date::text LIKE $1` with `$1 = '%' + term + '%'`; a NULL `condition`
matches nothing. -/
def rowMatches (r : MedicalRecord) (term : String) : Bool :=
  ilikeContains r.medicine term || ilikeContains r.dosage term ||
  (match r.condition with
   | some c => ilikeContains c term
   | none => false) ||
  likeContains r.startDate term

def searchByTerm (s : Store) (term : String) : List MedicalRecord :=
  sortByDateDesc (s.rows.filter (fun r => rowMatches r term))

/-- Modelled from the spec's words, for comparison with `rowMatches`:
"case-insensitive substring match", i.e. the lower-cased term occurs as a
contiguous substring of the lower-cased field. -/
def specContainsCI (hay term : String) : Bool :=
  decide (lowerList term <:+: lowerList hay)

/-- Modelled from the spec's words, for comparison with `rowMatches`: the
term occurs case-insensitively as a substring of `medicine`, `dosage`,
`condition`, or the text rendering of `startDate`. -/
def specRowMatches (r : MedicalRecord) (term : String) : Bool :=
  specContainsCI r.medicine term || specContainsCI r.dosage term ||
  (match r.condition with
   | some c => specContainsCI c term
   | none => false) ||
  specContainsCI r.startDate term

/-- A term without SQL `LIKE` metacharacters: no `%`, `_` or backslash. -/
def wildcardFree (l : List Char) : Bool :=
  l.all (fun c => !(c == '%' || c == '_' || c == '\\'))

/-- A string without basic latin letters, as the text rendering of a `DATE`
value always is. -/
def letterless (s : String) : Bool := s.toList.all (fun c => !c.isAlpha)

/-- The entity rewriting performed by the HTML text-node serialization that
`escapeHtml` of the client (part_000 lines 222-227) reads back through
`innerHTML` after assigning `textContent`. -/
def escChar (c : Char) : List Char :=
  if c = '&' then ['&', 'a', 'm', 'p', ';']
  else if c = '<' then ['&', 'l', 't', ';']
  else if c = '>' then ['&', 'g', 't', ';']
  else [c]

def escapeList : List Char → List Char
  | [] => []
  | c :: cs => escChar c ++ escapeList cs

/-- Function `escapeHtml(text)` of part_000 lines 222-227: the `if (!text) return ''`
guard, then the text-node round trip through the DOM, which serializes the
text with `&`, `<` and `>` rewritten to entities. -/
def escapeHtml (text : String) : String :=
  if text.isEmpty then "" else String.mk (escapeList text.toList)

/-- Decoding of the three entities `escapeHtml` can emit: how a browser
parses the escaped text back to the literal characters. -/
def unescapeList : List Char → List Char
  | '&' :: 'a' :: 'm' :: 'p' :: ';' :: rest => '&' :: unescapeList rest
  | '&' :: 'l' :: 't' :: ';' :: rest => '<' :: unescapeList rest
  | '&' :: 'g' :: 't' :: ';' :: rest => '>' :: unescapeList rest
  | c :: rest => c :: unescapeList rest
  | [] => []

def unescapeHtml (s : String) : String := String.mk (unescapeList s.toList)

/-- The record-title fragment of the card template in `displayRecords`
(part_000 line 165): the user-supplied `medicine` is inserted through
`escapeHtml`. -/
def recordTitleHtml (r : MedicalRecord) : String :=
  "<div class=\"record-title\">" ++ escapeHtml r.medicine ++ "</div>"

/-- The three seeded rows of `insertSampleData` (`server.js` lines 33-53),
with the ids the SERIAL column assigns into an empty table. -/
def aspirinRow : MedicalRecord :=
  { id := 1, medicine := "Aspirin", dosage := "500mg", duration := "7 days"
    startDate := "2024-10-15", endDate := "2024-10-22"
    condition := some ("Headache"), createdAt := 0, updatedAt := 0 }

def amoxicillinRow : MedicalRecord :=
  { id := 2, medicine := "Amoxicillin", dosage := "250mg", duration := "10 days"
    startDate := "2024-09-20", endDate := "2024-09-30"
    condition := some ("Throat Infection"), createdAt := 0, updatedAt := 0 }

def vitaminDRow : MedicalRecord :=
  { id := 3, medicine := "Vitamin D", dosage := "1000 IU", duration := "30 days"
    startDate := "2024-10-01", endDate := "2024-10-31"
    condition := some ("Deficiency"), createdAt := 0, updatedAt := 0 }

/-- The store right after `initializeDatabase` has seeded an empty table. -/
def sampleStore : Store :=
  { rows := [aspirinRow, amoxicillinRow, vitaminDRow], nextId := 4 }

/-- A PUT body carrying the seeded Aspirin fields with the date range
reversed: `startDate` after `endDate`. -/
def reversedDatesBody : RequestBody :=
  { medicine := some ("Aspirin"), dosage := some ("500mg"), duration := some ("7 days")
    startDate := some ("2024-10-22"), endDate := some ("2024-10-15")
    condition := some ("Headache") }

/-- The valid POST body of the spec's concrete scenario. -/
def ibuprofenBody : RequestBody :=
  { medicine := some ("Ibuprofen"), dosage := some ("200mg"), duration := some ("5 days")
    startDate := some ("2024-11-01"), endDate := some ("2024-11-06")
    condition := some ("Pain") }

/-- A body whose five required fields are non-empty but whose two dates are
not parseable as dates. -/
def unparsableDatesBody : RequestBody :=
  { medicine := some ("Ibuprofen"), dosage := some ("200mg"), duration := some ("5 days")
    startDate := some ("notadate"), endDate := some ("alsonotadate")
    condition := none }

/-- A valid body whose startDate and endDate are the same day. -/
def equalDatesBody : RequestBody :=
  { medicine := some ("Aspirin"), dosage := some ("500mg"), duration := some ("1 day")
    startDate := some ("2024-10-15"), endDate := some ("2024-10-15")
    condition := none }

/-- A body whose required `medicine` field is absent. -/
def missingMedicineBody : RequestBody :=
  { medicine := none, dosage := some ("200mg"), duration := some ("5 days")
    startDate := some ("2024-11-01"), endDate := some ("2024-11-06")
    condition := none }

/-- A record whose medicine field is an HTML script element. -/
def scriptRecord : MedicalRecord :=
  { id := 7, medicine := "<script>x</script>", dosage := "500mg"
    duration := "7 days", startDate := "2024-10-15", endDate := "2024-10-22"
    condition := none, createdAt := 0, updatedAt := 0 }

/-! ### Character classification lemmas -/

theorem char_toNat_ofNat_valid (n : Nat) (h : n < 55296) : (Char.ofNat n).toNat = n := by
  have hv : n.isValidChar := Or.inl h
  simp [Char.ofNat, hv, Char.ofNatAux, Char.toNat, UInt32.toNat]

theorem uint32_le_iff {a b : UInt32} : a ≤ b ↔ a.toNat ≤ b.toNat := by
  simp [UInt32.le_def, BitVec.le_def, UInt32.toNat]

theorem char_isUpper_iff {c : Char} : c.isUpper = true ↔ 65 ≤ c.toNat ∧ c.toNat ≤ 90 := by
  simp [Char.isUpper, Char.toNat, uint32_le_iff]
  norm_num [UInt32.toNat]

theorem char_isLower_iff {c : Char} : c.isLower = true ↔ 97 ≤ c.toNat ∧ c.toNat ≤ 122 := by
  simp [Char.isLower, Char.toNat, uint32_le_iff]
  norm_num [UInt32.toNat]

theorem char_isDigit_iff {c : Char} : c.isDigit = true ↔ 48 ≤ c.toNat ∧ c.toNat ≤ 57 := by
  simp [Char.isDigit, Char.toNat, uint32_le_iff]
  norm_num [UInt32.toNat]

theorem char_eq_iff_toNat {c d : Char} : c = d ↔ c.toNat = d.toNat := by
  constructor
  · rintro rfl; rfl
  · intro h
    exact Char.ext (UInt32.toNat.inj h)

theorem toLower_of_not_upper {c : Char} (h : c.isUpper = false) : c.toLower = c := by
  have h' : ¬(65 ≤ c.toNat ∧ c.toNat ≤ 90) := by
    intro hc
    rw [← char_isUpper_iff] at hc
    simp [hc] at h
  rw [Char.toLower]
  simp [h']

theorem toNat_toLower_of_upper {c : Char} (h : c.isUpper = true) :
    c.toLower.toNat = c.toNat + 32 := by
  have hc := char_isUpper_iff.1 h
  rw [Char.toLower]
  simp only [ge_iff_le, hc.1, hc.2, and_self, if_pos]
  exact char_toNat_ofNat_valid _ (by omega)

/-- Lemma: `Char.toLower` either fixes a character or produces a basic latin
lowercase letter. -/
theorem toLower_cases (c : Char) :
    c.toLower = c ∨ (97 ≤ c.toLower.toNat ∧ c.toLower.toNat ≤ 122) := by
  by_cases hu : c.isUpper = true
  · right
    have hv := toNat_toLower_of_upper hu
    have hc := char_isUpper_iff.1 hu
    omega
  · left
    exact toLower_of_not_upper (by simpa using hu)

theorem toLower_wildcardSafe {c : Char}
    (h1 : c ≠ '%') (h2 : c ≠ '_') (h3 : c ≠ '\\') :
    c.toLower ≠ '%' ∧ c.toLower ≠ '_' ∧ c.toLower ≠ '\\' := by
  rcases toLower_cases c with h | h
  · rw [h]; exact ⟨h1, h2, h3⟩
  · have h37 : Char.toNat '%' = 37 := rfl
    have h95 : Char.toNat '_' = 95 := rfl
    have h92 : Char.toNat '\\' = 92 := rfl
    refine ⟨fun he => ?_, fun he => ?_, fun he => ?_⟩
    · rw [char_eq_iff_toNat, h37] at he; omega
    · rw [char_eq_iff_toNat, h95] at he; omega
    · rw [char_eq_iff_toNat, h92] at he; omega

theorem isAlpha_toLower_of_upper {c : Char} (h : c.isUpper = true) :
    c.toLower.isAlpha = true := by
  have hv := toNat_toLower_of_upper h
  have hc := char_isUpper_iff.1 h
  have : c.toLower.isLower = true := char_isLower_iff.2 (by omega)
  simp [Char.isAlpha, this]

theorem map_toLower_of_no_upper {l : List Char} (h : ∀ c ∈ l, c.isUpper = false) :
    l.map Char.toLower = l := by
  induction l with
  | nil => rfl
  | cons c cs ih =>
    rw [List.map_cons, toLower_of_not_upper (h c (List.mem_cons_self c cs)),
      ih (fun x hx => h x (List.mem_cons_of_mem c hx))]

theorem map_toLower_of_letterless {l : List Char} (h : ∀ c ∈ l, c.isAlpha = false) :
    l.map Char.toLower = l :=
  map_toLower_of_no_upper (fun c hc => by
    have := h c hc
    simp [Char.isAlpha, Bool.or_eq_false_iff] at this
    exact this.1)

/-- On a letterless subject (such as a date rendering), case-insensitive and
case-sensitive substring occurrence coincide. -/
theorem infix_map_toLower_iff {t d : List Char} (hd : ∀ c ∈ d, c.isAlpha = false) :
    (t.map Char.toLower <:+: d.map Char.toLower) ↔ t <:+: d := by
  rw [map_toLower_of_letterless hd]
  by_cases ht : ∀ c ∈ t, c.isUpper = false
  · rw [map_toLower_of_no_upper ht]
  · push_neg at ht
    obtain ⟨c, hct, hcu⟩ := ht
    have hcu : c.isUpper = true := by simpa using hcu
    constructor
    · intro hinf
      exfalso
      have hmem : c.toLower ∈ d := hinf.subset (List.mem_map_of_mem Char.toLower hct)
      have := hd _ hmem
      rw [isAlpha_toLower_of_upper hcu] at this
      exact Bool.noConfusion this
    · intro hinf
      exfalso
      have hmem : c ∈ d := hinf.subset hct
      have := hd _ hmem
      simp [Char.isAlpha, Bool.or_eq_false_iff, hcu] at this

/-! ### Order lemmas for `ORDER BY start_date DESC` -/

theorem charListLe_total : ∀ x y : List Char, charListLe x y = true ∨ charListLe y x = true
  | [], _ => Or.inl rfl
  | _ :: _, [] => Or.inr rfl
  | a :: as, b :: bs => by
    by_cases hab : a = b
    · subst hab
      simpa [charListLe] using charListLe_total as bs
    · rcases lt_or_gt_of_ne hab with h | h
      · exact Or.inl (by simp [charListLe, hab, h])
      · exact Or.inr (by simp [charListLe, Ne.symm hab, h])

theorem charListLe_trans :
    ∀ x y z : List Char, charListLe x y = true → charListLe y z = true →
      charListLe x z = true
  | [], _, _, _, _ => rfl
  | a :: as, [], z, h1, _ => by simp [charListLe] at h1
  | a :: as, b :: bs, [], _, h2 => by simp [charListLe] at h2
  | a :: as, b :: bs, c :: cs, h1, h2 => by
    by_cases hab : a = b <;> by_cases hbc : b = c
    · subst hab; subst hbc
      simp only [charListLe, if_pos rfl] at h1 h2 ⊢
      exact charListLe_trans as bs cs h1 h2
    · subst hab
      simp only [charListLe, if_pos rfl, if_neg hbc] at h2 ⊢
      exact h2
    · subst hbc
      simp only [charListLe, if_neg hab] at h1 ⊢
      exact h1
    · simp only [charListLe, if_neg hab] at h1
      simp only [charListLe, if_neg hbc] at h2
      have hac : a < c := lt_trans (of_decide_eq_true h1) (of_decide_eq_true h2)
      simp [charListLe, ne_of_lt hac, hac]

theorem startDateDesc_total (a b : MedicalRecord) :
    startDateDesc a b = true ∨ startDateDesc b a = true :=
  charListLe_total b.startDate.toList a.startDate.toList

theorem startDateDesc_trans {a b c : MedicalRecord} (h1 : startDateDesc a b = true)
    (h2 : startDateDesc b c = true) : startDateDesc a c = true :=
  charListLe_trans _ _ _ h2 h1

theorem insertByDate_perm (r : MedicalRecord) :
    ∀ l : List MedicalRecord, List.Perm (insertByDate r l) (r :: l)
  | [] => List.Perm.refl _
  | q :: qs => by
    unfold insertByDate
    by_cases h : startDateDesc r q
    · simp [h]
    · simp only [h, if_neg]
      exact ((insertByDate_perm r qs).cons q).trans (List.Perm.swap r q qs)

theorem sortByDateDesc_perm :
    ∀ l : List MedicalRecord, List.Perm (sortByDateDesc l) l
  | [] => List.Perm.refl _
  | r :: rs =>
    (insertByDate_perm r (sortByDateDesc rs)).trans ((sortByDateDesc_perm rs).cons r)

theorem mem_insertByDate {a r : MedicalRecord} {l : List MedicalRecord} :
    a ∈ insertByDate r l ↔ a = r ∨ a ∈ l := by
  rw [(insertByDate_perm r l).mem_iff, List.mem_cons]

theorem pairwise_insertByDate (r : MedicalRecord) :
    ∀ l : List MedicalRecord,
      l.Pairwise (fun a b => startDateDesc a b = true) →
      (insertByDate r l).Pairwise (fun a b => startDateDesc a b = true)
  | [], _ => by simp [insertByDate]
  | q :: qs, h => by
    rcases List.pairwise_cons.1 h with ⟨hq, hqs⟩
    unfold insertByDate
    by_cases hrq : startDateDesc r q
    · simp only [hrq, if_pos]
      refine List.pairwise_cons.2 ⟨?_, h⟩
      intro x hx
      rcases List.mem_cons.1 hx with rfl | hx
      · exact hrq
      · exact startDateDesc_trans hrq (hq x hx)
    · simp only [hrq, if_neg, Bool.false_eq_true, not_false_iff]
      refine List.pairwise_cons.2 ⟨?_, pairwise_insertByDate r qs hqs⟩
      intro x hx
      rcases mem_insertByDate.1 hx with rfl | hx
      · rcases startDateDesc_total x q with h' | h'
        · exact absurd h' (by simpa using hrq)
        · exact h'
      · exact hq x hx

theorem pairwise_sortByDateDesc :
    ∀ l : List MedicalRecord,
      (sortByDateDesc l).Pairwise (fun a b => startDateDesc a b = true)
  | [] => List.Pairwise.nil
  | r :: rs => pairwise_insertByDate r _ (pairwise_sortByDateDesc rs)

/-! ### SQL LIKE lemmas -/

theorem anySuffix_iff (f : List Char → Bool) :
    ∀ s : List Char, anySuffix f s = true ↔ ∃ t, t <:+ s ∧ f t = true
  | [] => by
    constructor
    · intro h
      exact ⟨[], List.suffix_refl _, h⟩
    · rintro ⟨t, ht, hf⟩
      rw [List.suffix_nil.1 ht] at hf
      exact hf
  | c :: s => by
    rw [show anySuffix f (c :: s) = (f (c :: s) || anySuffix f s) from rfl,
      Bool.or_eq_true, anySuffix_iff f s]
    constructor
    · rintro (h | ⟨t, ht, hf⟩)
      · exact ⟨c :: s, List.suffix_refl _, h⟩
      · exact ⟨t, ht.trans (List.suffix_cons c s), hf⟩
    · rintro ⟨t, ht, hf⟩
      rcases List.suffix_cons_iff.1 ht with rfl | ht2
      · exact Or.inl hf
      · exact Or.inr ⟨t, ht2, hf⟩

theorem likeMatch_pct (ps : List Char) :
    likeMatch ('%' :: ps) = anySuffix (likeMatch ps) := rfl

theorem likeMatch_all_pct (s : List Char) : likeMatch ['%'] s = true := by
  rw [likeMatch_pct, anySuffix_iff]
  exact ⟨[], List.nil_suffix, rfl⟩

theorem likeMatch_lit {p : Char} (ps : List Char)
    (h1 : p ≠ '%') (h2 : p ≠ '_') (h3 : p ≠ '\\') :
    likeMatch (p :: ps) = matchLit p (likeMatch ps) := by
  rw [likeMatch]
  · exact fun h => h1 h
  · exact fun h => h2 h
  · exact fun h _ => h3 h
  · exact fun q ps2 h _ => h3 h

theorem wildcardFree_cons {c : Char} {t : List Char} :
    wildcardFree (c :: t) = true ↔
      (c ≠ '%' ∧ c ≠ '_' ∧ c ≠ '\\') ∧ wildcardFree t = true := by
  simp [wildcardFree]
  tauto

theorem likeMatch_lit_pct :
    ∀ t : List Char, wildcardFree t = true →
      ∀ s, likeMatch (t ++ ['%']) s = true ↔ t <+: s
  | [], _, s => by
    rw [List.nil_append]
    simp [likeMatch_all_pct s]
  | c :: t, hwf, s => by
    obtain ⟨⟨h1, h2, h3⟩, hwt⟩ := wildcardFree_cons.1 hwf
    rw [List.cons_append, likeMatch_lit _ h1 h2 h3]
    cases s with
    | nil =>
      simp [matchLit]
    | cons d s2 =>
      rw [show matchLit c (likeMatch (t ++ ['%'])) (d :: s2) =
            (decide (c = d) && likeMatch (t ++ ['%']) s2) from rfl,
        List.cons_prefix_cons, Bool.and_eq_true, decide_eq_true_eq,
        likeMatch_lit_pct t hwt s2]

/-- A `%term%` pattern with a wildcard-free term matches exactly the strings
that contain the term as a contiguous substring. -/
theorem likeMatch_contains_iff {t s : List Char} (h : wildcardFree t = true) :
    likeMatch ('%' :: (t ++ ['%'])) s = true ↔ t <:+: s := by
  rw [likeMatch_pct, anySuffix_iff]
  constructor
  · rintro ⟨u, hu, hf⟩
    exact List.infix_iff_prefix_suffix.2 ⟨u, (likeMatch_lit_pct t h u).1 hf, hu⟩
  · intro hinf
    obtain ⟨u, hp, hs⟩ := List.infix_iff_prefix_suffix.1 hinf
    exact ⟨u, hs, (likeMatch_lit_pct t h u).2 hp⟩

theorem wildcardFree_lowerList {s : String} (h : wildcardFree s.toList = true) :
    wildcardFree (lowerList s) = true := by
  rw [wildcardFree, List.all_eq_true] at h ⊢
  rw [lowerList]
  intro c hc
  obtain ⟨d, hd, rfl⟩ := List.mem_map.1 hc
  have hd' := h d hd
  simp only [Bool.not_eq_true', Bool.or_eq_false_iff, beq_eq_false_iff_ne] at hd' ⊢
  obtain ⟨hx1, hx2, hx3⟩ := toLower_wildcardSafe hd'.1.1 hd'.1.2 hd'.2
  exact ⟨⟨hx1, hx2⟩, hx3⟩

/-- C3: `GET /api/records` returns every stored record exactly as often as it
is stored (a permutation: nothing is dropped, truncated or paginated), and the
result is ordered by `startDate` descending, whatever the insertion order of
the store's rows was. -/
theorem listAll_complete_and_sorted (s : Store) :
    List.Perm (listAll s) s.rows ∧
    (listAll s).Pairwise (fun a b => startDateDesc a b = true) :=
  ⟨sortByDateDesc_perm s.rows, pairwise_sortByDateDesc s.rows⟩

/-! ### Unfolding equations for the handlers -/

theorem postRecord_missing {s : Store} {b : RequestBody} {now : Nat}
    (hm : requiredMissing b = true) :
    postRecord s b now = (.badRequest ("All required fields must be provided"), s) := by
  rw [postRecord, if_pos hm]

theorem postRecord_dateOrder {s : Store} {b : RequestBody} {now : Nat}
    (hm : requiredMissing b = false)
    (hgt : jsDateGt (reqField b.startDate) (reqField b.endDate) = true) :
    postRecord s b now = (.badRequest ("Start date cannot be after end date"), s) := by
  rw [postRecord]
  simp [hm, hgt]

theorem postRecord_created {s : Store} {b : RequestBody} {now : Nat}
    (hm : requiredMissing b = false)
    (hgt : jsDateGt (reqField b.startDate) (reqField b.endDate) = false)
    (hs : validDate (reqField b.startDate) = true)
    (he : validDate (reqField b.endDate) = true) :
    postRecord s b now =
      (.created (newRecord s b now),
       { rows := s.rows ++ [newRecord s b now], nextId := s.nextId + 1 }) := by
  rw [postRecord]
  simp [hm, hgt, hs, he]

theorem postRecord_storeError {s : Store} {b : RequestBody} {now : Nat}
    (hm : requiredMissing b = false)
    (hgt : jsDateGt (reqField b.startDate) (reqField b.endDate) = false)
    (hv : (validDate (reqField b.startDate) && validDate (reqField b.endDate)) = false) :
    postRecord s b now = (.storeError, s) := by
  rw [postRecord]
  simp [hm, hgt, hv]

theorem putRecord_missing {s : Store} {i : Nat} {b : RequestBody} {now : Nat}
    (hm : requiredMissing b = true) :
    putRecord s i b now = (.badRequest ("All required fields must be provided"), s) := by
  rw [putRecord, if_pos hm]

theorem putRecord_storeError {s : Store} {i : Nat} {b : RequestBody} {now : Nat}
    (hm : requiredMissing b = false)
    (hv : (validDate (reqField b.startDate) && validDate (reqField b.endDate)) = false) :
    putRecord s i b now = (.storeError, s) := by
  rw [putRecord]
  simp [hm, hv]

theorem putRecord_notFound {s : Store} {i : Nat} {b : RequestBody} {now : Nat}
    (hm : requiredMissing b = false)
    (hv : (validDate (reqField b.startDate) && validDate (reqField b.endDate)) = true)
    (hf : s.rows.find? (fun r => r.id == i) = none) :
    putRecord s i b now = (.notFound, s) := by
  rw [putRecord]
  simp [hm, hv, hf]

theorem putRecord_found {s : Store} {i : Nat} {b : RequestBody} {now : Nat}
    {r0 : MedicalRecord}
    (hm : requiredMissing b = false)
    (hv : (validDate (reqField b.startDate) && validDate (reqField b.endDate)) = true)
    (hf : s.rows.find? (fun r => r.id == i) = some r0) :
    putRecord s i b now =
      (.updated (updateFields r0 b now),
       { s with rows := s.rows.map (fun r => if r.id == i then updateFields r b now else r) }) := by
  rw [putRecord]
  simp [hm, hv, hf]

theorem deleteRecord_found {s : Store} {i : Nat}
    (h : s.rows.any (fun r => r.id == i) = true) :
    deleteRecord s i = (.deleted, { s with rows := s.rows.filter (fun r => r.id != i) }) := by
  rw [deleteRecord, if_pos h]

theorem deleteRecord_notFound {s : Store} {i : Nat}
    (h : s.rows.any (fun r => r.id == i) = false) :
    deleteRecord s i = (.notFound, s) := by
  rw [deleteRecord]
  simp [h]

/-! ### Row lookup lemmas -/

theorem find?_id_of_nodup {i : Nat} :
    ∀ {rows : List MedicalRecord} {r : MedicalRecord},
      (rows.map (fun q => q.id)).Nodup → r ∈ rows → r.id = i →
      rows.find? (fun q => q.id == i) = some r
  | q :: qs, r, hnd, hr, hid => by
    rw [List.map_cons, List.nodup_cons] at hnd
    rcases List.mem_cons.1 hr with rfl | hmem
    · rw [List.find?_cons_of_pos _ (by simp [hid])]
    · have hq : q.id ≠ i := by
        intro he
        apply hnd.1
        rw [he, ← hid]
        exact List.mem_map_of_mem (fun x => x.id) hmem
      rw [List.find?_cons_of_neg _ (by simp [hq])]
      exact find?_id_of_nodup hnd.2 hmem hid

theorem find?_id_append_fresh {rows : List MedicalRecord} {i : Nat}
    (h : ∀ r ∈ rows, r.id ≠ i) (tl : List MedicalRecord) :
    (rows ++ tl).find? (fun q => q.id == i) = tl.find? (fun q => q.id == i) := by
  induction rows with
  | nil => rfl
  | cons q qs ih =>
    rw [List.cons_append,
      List.find?_cons_of_neg _ (by simp [h q (List.mem_cons_self q qs)])]
    exact ih (fun r hr => h r (List.mem_cons_of_mem q hr))

theorem filter_id_eq_single {i : Nat} :
    ∀ {rows : List MedicalRecord} {r : MedicalRecord},
      (rows.map (fun q => q.id)).Nodup → r ∈ rows → r.id = i →
      rows.filter (fun q => q.id == i) = [r]
  | q :: qs, r, hnd, hr, hid => by
    rw [List.map_cons, List.nodup_cons] at hnd
    rcases List.mem_cons.1 hr with rfl | hmem
    · rw [List.filter_cons_of_pos (by simp [hid])]
      have : qs.filter (fun q => q.id == i) = [] := by
        rw [List.filter_eq_nil_iff]
        intro x hx hxi
        apply hnd.1
        have : x.id = i := by simpa using hxi
        rw [hid, ← this]
        exact List.mem_map_of_mem (fun y => y.id) hx
      rw [this]
    · have hq : q.id ≠ i := by
        intro he
        apply hnd.1
        rw [he, ← hid]
        exact List.mem_map_of_mem (fun x => x.id) hmem
      rw [List.filter_cons_of_neg (by simp [hq])]
      exact filter_id_eq_single hnd.2 hmem hid

theorem length_filter_ne {i : Nat} :
    ∀ {rows : List MedicalRecord} {r : MedicalRecord},
      (rows.map (fun q => q.id)).Nodup → r ∈ rows → r.id = i →
      (rows.filter (fun q => q.id != i)).length + 1 = rows.length
  | q :: qs, r, hnd, hr, hid => by
    rw [List.map_cons, List.nodup_cons] at hnd
    rcases List.mem_cons.1 hr with rfl | hmem
    · rw [List.filter_cons_of_neg (by simp [hid])]
      have hall : qs.filter (fun q => q.id != i) = qs := by
        rw [List.filter_eq_self]
        intro x hx
        have hxi : x.id ≠ i := by
          intro he
          apply hnd.1
          rw [← hid] at he
          rw [← he]
          exact List.mem_map_of_mem (fun y => y.id) hx
        simp [hxi]
      rw [hall, List.length_cons]
    · have hq : q.id ≠ i := by
        intro he
        apply hnd.1
        rw [he, ← hid]
        exact List.mem_map_of_mem (fun x => x.id) hmem
      rw [List.filter_cons_of_pos (by simp [hq]), List.length_cons, List.length_cons,
        length_filter_ne hnd.2 hmem hid]

theorem updateFields_id (r : MedicalRecord) (b : RequestBody) (now : Nat) :
    (updateFields r b now).id = r.id := rfl

theorem updateFields_createdAt (r : MedicalRecord) (b : RequestBody) (now : Nat) :
    (updateFields r b now).createdAt = r.createdAt := rfl

theorem find?_id_map_update {i : Nat} (b : RequestBody) (now : Nat) :
    ∀ {rows : List MedicalRecord} {r : MedicalRecord},
      (rows.map (fun q => q.id)).Nodup → r ∈ rows → r.id = i →
      (rows.map (fun q => if q.id == i then updateFields q b now else q)).find?
          (fun q => q.id == i) = some (updateFields r b now)
  | q :: qs, r, hnd, hr, hid => by
    rw [List.map_cons, List.nodup_cons] at hnd
    rcases List.mem_cons.1 hr with rfl | hmem
    · rw [List.map_cons, if_pos (by simp [hid]),
        List.find?_cons_of_pos _ (by simp [updateFields_id, hid])]
    · have hq : q.id ≠ i := by
        intro he
        apply hnd.1
        rw [he, ← hid]
        exact List.mem_map_of_mem (fun x => x.id) hmem
      rw [List.map_cons, if_neg (by simp [hq]), List.find?_cons_of_neg _ (by simp [hq])]
      exact find?_id_map_update b now hnd.2 hmem hid

/-! ### Escaping lemmas -/

theorem bool_eq_of_iff {a b : Bool} (h : a = true ↔ b = true) : a = b := by
  cases a <;> cases b <;> simp_all

theorem escChar_no_markup (c : Char) : '<' ∉ escChar c ∧ '>' ∉ escChar c := by
  rw [escChar]
  by_cases h1 : c = '&'
  · simp [h1]
  · by_cases h2 : c = '<'
    · simp [h1, h2]
    · by_cases h3 : c = '>'
      · simp [h1, h2, h3]
      · simp only [if_neg h1, if_neg h2, if_neg h3, List.mem_singleton]
        exact ⟨fun he => h2 he.symm, fun he => h3 he.symm⟩

theorem escapeList_no_markup :
    ∀ l : List Char, '<' ∉ escapeList l ∧ '>' ∉ escapeList l
  | [] => by simp [escapeList]
  | c :: cs => by
    rw [show escapeList (c :: cs) = escChar c ++ escapeList cs from rfl]
    have h1 := escChar_no_markup c
    have h2 := escapeList_no_markup cs
    simp only [List.mem_append, not_or]
    exact ⟨⟨h1.1, h2.1⟩, ⟨h1.2, h2.2⟩⟩

theorem unescapeList_cons_ne {c : Char} (l : List Char) (h : c ≠ '&') :
    unescapeList (c :: l) = c :: unescapeList l := by
  rw [unescapeList]
  · exact fun _ h' _ => h h'
  · exact fun _ h' _ => h h'
  · exact fun _ h' _ => h h'

theorem unescape_escape : ∀ l : List Char, unescapeList (escapeList l) = l
  | [] => rfl
  | c :: cs => by
    rw [show escapeList (c :: cs) = escChar c ++ escapeList cs from rfl, escChar]
    by_cases h1 : c = '&'
    · subst h1
      rw [if_pos rfl,
        show (['&', 'a', 'm', 'p', ';'] : List Char) ++ escapeList cs =
          '&' :: 'a' :: 'm' :: 'p' :: ';' :: escapeList cs from rfl,
        show unescapeList ('&' :: 'a' :: 'm' :: 'p' :: ';' :: escapeList cs) =
          '&' :: unescapeList (escapeList cs) from rfl,
        unescape_escape cs]
    · by_cases h2 : c = '<'
      · subst h2
        rw [if_neg h1, if_pos rfl,
          show (['&', 'l', 't', ';'] : List Char) ++ escapeList cs =
            '&' :: 'l' :: 't' :: ';' :: escapeList cs from rfl,
          show unescapeList ('&' :: 'l' :: 't' :: ';' :: escapeList cs) =
            '<' :: unescapeList (escapeList cs) from rfl,
          unescape_escape cs]
      · by_cases h3 : c = '>'
        · subst h3
          rw [if_neg h1, if_neg h2, if_pos rfl,
            show (['&', 'g', 't', ';'] : List Char) ++ escapeList cs =
              '&' :: 'g' :: 't' :: ';' :: escapeList cs from rfl,
            show unescapeList ('&' :: 'g' :: 't' :: ';' :: escapeList cs) =
              '>' :: unescapeList (escapeList cs) from rfl,
            unescape_escape cs]
        · rw [if_neg h1, if_neg h2, if_neg h3,
            show ([c] : List Char) ++ escapeList cs = c :: escapeList cs from rfl,
            unescapeList_cons_ne _ h1, unescape_escape cs]

theorem escapeHtml_no_markup_and_roundtrip (t : String) :
    '<' ∉ (escapeHtml t).toList ∧ '>' ∉ (escapeHtml t).toList ∧
      unescapeHtml (escapeHtml t) = t := by
  rw [escapeHtml]
  by_cases he : t.isEmpty = true
  · rw [if_pos he]
    have ht : t = "" := (String.isEmpty_iff t).1 he
    subst ht
    exact ⟨by simp, by simp, rfl⟩
  · rw [if_neg he]
    refine ⟨?_, ?_, ?_⟩
    · exact (escapeList_no_markup t.toList).1
    · exact (escapeList_no_markup t.toList).2
    · show String.mk (unescapeList (escapeList t.toList)) = t
      rw [unescape_escape t.toList]
      rfl

/-! ### Claim theorems -/

/-- C1 (counterexample): the PUT handler performs no date-order check.
Updating the seeded Aspirin row with `startDate = "2024-10-22"` and
`endDate = "2024-10-15"` answers 200 (not 400) and stores a record whose
`startDate` is after its `endDate`, so a record reachable through PUT can
violate the invariant. -/
theorem put_accepts_reversed_dates :
    (putRecord sampleStore 1 reversedDatesBody 5).1.status = 200 ∧
    getById (putRecord sampleStore 1 reversedDatesBody 5).2 1 =
      some { id := 1, medicine := "Aspirin", dosage := "500mg", duration := "7 days"
             startDate := "2024-10-22", endDate := "2024-10-15"
             condition := some ("Headache"), createdAt := 0, updatedAt := 5 } ∧
    jsDateGt ("2024-10-22") ("2024-10-15") = true := by decide

/-- C1 (amended): only the POST handler enforces the date order: a POST body
whose startDate is after its endDate is answered with 400 and the store is
unchanged, and every record POST creates satisfies startDate ≤ endDate; the
PUT handler performs no date-order check. -/
theorem post_rejects_reversed_dates (s : Store) (b : RequestBody) (now : Nat) :
    (jsDateGt (reqField b.startDate) (reqField b.endDate) = true →
      (postRecord s b now).1.status = 400 ∧ (postRecord s b now).2 = s) ∧
    (∀ r, (postRecord s b now).1 = PostResult.created r →
      ∃ x y, parseIsoDate r.startDate = some x ∧ parseIsoDate r.endDate = some y ∧
        x ≤ y) := by
  constructor
  · intro hgt
    by_cases hm : requiredMissing b = true
    · rw [postRecord_missing hm]
      exact ⟨rfl, rfl⟩
    · rw [Bool.not_eq_true] at hm
      rw [postRecord_dateOrder hm hgt]
      exact ⟨rfl, rfl⟩
  · intro r hr
    by_cases hm : requiredMissing b = true
    · rw [postRecord_missing hm] at hr
      exact absurd hr (by simp)
    · rw [Bool.not_eq_true] at hm
      by_cases hgt : jsDateGt (reqField b.startDate) (reqField b.endDate) = true
      · rw [postRecord_dateOrder hm hgt] at hr
        exact absurd hr (by simp)
      · rw [Bool.not_eq_true] at hgt
        by_cases hv : (validDate (reqField b.startDate) && validDate (reqField b.endDate)) = true
        · rw [Bool.and_eq_true] at hv
          obtain ⟨hs, he⟩ := hv
          rw [postRecord_created hm hgt hs he] at hr
          have hre : newRecord s b now = r := by
            injection hr
          subst hre
          rw [validDate, Option.isSome_iff_exists] at hs he
          obtain ⟨x, hx⟩ := hs
          obtain ⟨y, hy⟩ := he
          refine ⟨x, y, hx, hy, ?_⟩
          rw [jsDateGt, hx, hy] at hgt
          simp at hgt
          omega
        · rw [Bool.not_eq_true] at hv
          rw [postRecord_storeError hm hgt hv] at hr
          exact absurd hr (by simp)

theorem post_rejects_reversed_dates_witness :
    (postRecord sampleStore reversedDatesBody 7).1.status = 400 ∧
    (postRecord sampleStore reversedDatesBody 7).2 = sampleStore :=
  (post_rejects_reversed_dates sampleStore reversedDatesBody 7).1 (by decide)

/-- C2: for a valid body (required fields present and non-empty, parseable
dates in order) POST creates `newRecord`, answers 201, GET by the returned id
yields exactly that record, and the record carries the input fields with the
assigned id and timestamps; an absent or empty condition is stored as null. -/
theorem post_then_get_roundtrip (s : Store) (b : RequestBody) (now x y : Nat)
    (hm : requiredMissing b = false)
    (hx : parseIsoDate (reqField b.startDate) = some x)
    (hy : parseIsoDate (reqField b.endDate) = some y)
    (hxy : x ≤ y)
    (hfresh : ∀ r ∈ s.rows, r.id ≠ s.nextId) :
    (postRecord s b now).1 = PostResult.created (newRecord s b now) ∧
    (postRecord s b now).1.status = 201 ∧
    getById (postRecord s b now).2 (newRecord s b now).id =
      some (newRecord s b now) ∧
    (newRecord s b now).medicine = reqField b.medicine ∧
    (newRecord s b now).dosage = reqField b.dosage ∧
    (newRecord s b now).duration = reqField b.duration ∧
    (newRecord s b now).startDate = reqField b.startDate ∧
    (newRecord s b now).endDate = reqField b.endDate ∧
    (newRecord s b now).id = s.nextId ∧
    (newRecord s b now).createdAt = now ∧
    (newRecord s b now).updatedAt = now ∧
    ((b.condition = none ∨ b.condition = some ("")) →
      (newRecord s b now).condition = none) := by
  have hgt : jsDateGt (reqField b.startDate) (reqField b.endDate) = false := by
    rw [jsDateGt, hx, hy]
    simp
    omega
  have hpost := @postRecord_created s b now hm hgt (by rw [validDate, hx]; rfl)
    (by rw [validDate, hy]; rfl)
  refine ⟨by rw [hpost], by rw [hpost]; rfl, ?_, rfl, rfl, rfl, rfl, rfl, rfl, rfl, rfl, ?_⟩
  · rw [hpost, getById]
    show ((s.rows ++ [newRecord s b now]).find?
      (fun r => r.id == s.nextId)) = some (newRecord s b now)
    rw [find?_id_append_fresh (fun r hr => hfresh r hr) [newRecord s b now],
      List.find?_cons_of_pos _ (by simp [newRecord])]
  · intro hc
    rcases hc with hc | hc
    · simp [newRecord, normCondition, hc]
    · simp [newRecord, normCondition, hc]
      decide

theorem post_then_get_roundtrip_witness :
    (postRecord sampleStore ibuprofenBody 7).1 =
      PostResult.created (newRecord sampleStore ibuprofenBody 7) ∧
    (postRecord sampleStore ibuprofenBody 7).1.status = 201 ∧
    getById (postRecord sampleStore ibuprofenBody 7).2
        (newRecord sampleStore ibuprofenBody 7).id =
      some (newRecord sampleStore ibuprofenBody 7) := by
  have h := post_then_get_roundtrip sampleStore ibuprofenBody 7 20241101 20241106
    (by decide) (by decide) (by decide) (by decide) (by decide)
  exact ⟨h.1, h.2.1, h.2.2.1⟩

/-- C5: DELETE on an existing id answers 200, removes exactly the rows with
that id (one row, given unique ids: the count drops by one, every other row
survives) and a subsequent GET by the id is a 404; DELETE on an id with no
row answers 404 and leaves the store unchanged. -/
theorem delete_removes_then_404 (s : Store) (i : Nat) :
    ((s.rows.map (fun q => q.id)).Nodup →
      ∀ r ∈ s.rows, r.id = i →
        (deleteRecord s i).1.status = 200 ∧
        getById (deleteRecord s i).2 i = none ∧
        (∀ q, q ∈ (deleteRecord s i).2.rows ↔ q ∈ s.rows ∧ q.id ≠ i) ∧
        (deleteRecord s i).2.rows.length + 1 = s.rows.length) ∧
    ((∀ r ∈ s.rows, r.id ≠ i) →
      (deleteRecord s i).1.status = 404 ∧ (deleteRecord s i).2 = s) := by
  constructor
  · intro hnd r hr hid
    have hany : s.rows.any (fun q => q.id == i) = true :=
      List.any_eq_true.2 ⟨r, hr, by simp [hid]⟩
    have hdel := deleteRecord_found hany
    rw [hdel]
    refine ⟨rfl, ?_, ?_, ?_⟩
    · rw [getById]
      apply List.find?_eq_none.2
      intro q hq
      have := (List.mem_filter.1 hq).2
      simp only [bne_iff_ne, ne_eq] at this
      simp [this]
    · intro q
      rw [List.mem_filter, bne_iff_ne]
    · exact length_filter_ne hnd hr hid
  · intro h
    have hany : s.rows.any (fun q => q.id == i) = false := by
      rw [List.any_eq_false]
      intro x hx
      simp [h x hx]
    rw [deleteRecord_notFound hany]
    exact ⟨rfl, rfl⟩

theorem delete_removes_then_404_witness :
    ((deleteRecord sampleStore 1).1.status = 200 ∧
     getById (deleteRecord sampleStore 1).2 1 = none ∧
     (deleteRecord sampleStore 1).2.rows.length + 1 = sampleStore.rows.length) ∧
    ((deleteRecord sampleStore 9999).1.status = 404 ∧
     (deleteRecord sampleStore 9999).2 = sampleStore) := by
  have h1 := (delete_removes_then_404 sampleStore 1).1 (by decide) aspirinRow
    (by decide) (by decide)
  have h2 := (delete_removes_then_404 sampleStore 9999).2 (by decide)
  exact ⟨⟨h1.1, h1.2.1, h1.2.2.2⟩, h2⟩

/-- C6: a PUT to an id with no matching row leaves the stored record set
unchanged whatever the body is, and (for a body that passes validation and
whose dates the store accepts) answers 404. -/
theorem put_nonexistent_404 (s : Store) (i : Nat) (b : RequestBody) (now : Nat)
    (h : ∀ r ∈ s.rows, r.id ≠ i) :
    (putRecord s i b now).2 = s ∧
    (requiredMissing b = false →
      (validDate (reqField b.startDate) && validDate (reqField b.endDate)) = true →
      (putRecord s i b now).1 = PutResult.notFound ∧
      (putRecord s i b now).1.status = 404) := by
  have hf : s.rows.find? (fun r => r.id == i) = none :=
    List.find?_eq_none.2 (fun x hx => by simp [h x hx])
  constructor
  · by_cases hm : requiredMissing b = true
    · rw [putRecord_missing hm]
    · rw [Bool.not_eq_true] at hm
      by_cases hv : (validDate (reqField b.startDate) && validDate (reqField b.endDate)) = true
      · rw [putRecord_notFound hm hv hf]
      · rw [Bool.not_eq_true] at hv
        rw [putRecord_storeError hm hv]
  · intro hm hv
    rw [putRecord_notFound hm hv hf]
    exact ⟨rfl, rfl⟩

theorem put_nonexistent_404_witness :
    (putRecord sampleStore 9999 ibuprofenBody 7).2 = sampleStore ∧
    (putRecord sampleStore 9999 ibuprofenBody 7).1 = PutResult.notFound := by
  have h := put_nonexistent_404 sampleStore 9999 ibuprofenBody 7 (by decide)
  exact ⟨h.1, (h.2 (by decide) (by decide)).1⟩

/-- C7: a body in which any of the five required fields is absent or empty is
answered with 400 by both POST and PUT, and the store is unchanged. -/
theorem missing_required_field_400 (s : Store) (i : Nat) (b : RequestBody) (now : Nat)
    (h : falsy b.medicine = true ∨ falsy b.dosage = true ∨ falsy b.duration = true ∨
         falsy b.startDate = true ∨ falsy b.endDate = true) :
    (postRecord s b now).1.status = 400 ∧ (postRecord s b now).2 = s ∧
    (putRecord s i b now).1.status = 400 ∧ (putRecord s i b now).2 = s := by
  have hm : requiredMissing b = true := by
    rw [requiredMissing]
    rcases h with h | h | h | h | h <;> simp [h]
  rw [postRecord_missing hm, putRecord_missing hm]
  exact ⟨rfl, rfl, rfl, rfl⟩

theorem missing_required_field_400_witness :
    (postRecord sampleStore missingMedicineBody 7).1.status = 400 ∧
    (postRecord sampleStore missingMedicineBody 7).2 = sampleStore ∧
    (putRecord sampleStore 1 missingMedicineBody 7).1.status = 400 ∧
    (putRecord sampleStore 1 missingMedicineBody 7).2 = sampleStore :=
  missing_required_field_400 sampleStore 1 missingMedicineBody 7 (Or.inl (by decide))

/-- C8: a successful PUT stores, under the same id, a row that keeps the old
`id` and `createdAt`, carries the six user fields of the body, and has
`updatedAt` refreshed by the trigger; every row with a different id is
untouched and the row count is unchanged. -/
theorem put_replaces_only_user_fields (s : Store) (i : Nat) (b : RequestBody)
    (now : Nat)
    (hnd : (s.rows.map (fun q => q.id)).Nodup)
    (r : MedicalRecord) (hr : r ∈ s.rows) (hid : r.id = i)
    (hm : requiredMissing b = false)
    (hv : (validDate (reqField b.startDate) && validDate (reqField b.endDate)) = true) :
    (putRecord s i b now).1 = PutResult.updated (updateFields r b now) ∧
    (putRecord s i b now).1.status = 200 ∧
    getById (putRecord s i b now).2 i = some (updateFields r b now) ∧
    (∀ q ∈ s.rows, q.id ≠ i → q ∈ (putRecord s i b now).2.rows) ∧
    (putRecord s i b now).2.rows.length = s.rows.length ∧
    (updateFields r b now).id = r.id ∧
    (updateFields r b now).createdAt = r.createdAt ∧
    (updateFields r b now).updatedAt = now ∧
    (updateFields r b now).medicine = reqField b.medicine ∧
    (updateFields r b now).dosage = reqField b.dosage ∧
    (updateFields r b now).duration = reqField b.duration ∧
    (updateFields r b now).startDate = reqField b.startDate ∧
    (updateFields r b now).endDate = reqField b.endDate ∧
    (updateFields r b now).condition = normCondition b.condition := by
  have hf := find?_id_of_nodup hnd hr hid
  have hput := @putRecord_found s i b now r hm hv hf
  refine ⟨by rw [hput], by rw [hput]; rfl, ?_, ?_, by rw [hput]; exact s.rows.length_map _,
    rfl, rfl, rfl, rfl, rfl, rfl, rfl, rfl, rfl⟩
  · rw [hput, getById]
    exact find?_id_map_update b now hnd hr hid
  · intro q hq hqi
    rw [hput]
    exact List.mem_map.2 ⟨q, hq, by simp [hqi]⟩

theorem put_replaces_only_user_fields_witness :
    (putRecord sampleStore 2 ibuprofenBody 9).1 =
      PutResult.updated (updateFields amoxicillinRow ibuprofenBody 9) ∧
    (putRecord sampleStore 2 ibuprofenBody 9).1.status = 200 ∧
    getById (putRecord sampleStore 2 ibuprofenBody 9).2 2 =
      some (updateFields amoxicillinRow ibuprofenBody 9) ∧
    (updateFields amoxicillinRow ibuprofenBody 9).id = amoxicillinRow.id ∧
    (updateFields amoxicillinRow ibuprofenBody 9).createdAt =
      amoxicillinRow.createdAt ∧
    (updateFields amoxicillinRow ibuprofenBody 9).updatedAt = 9 := by
  have h := put_replaces_only_user_fields sampleStore 2 ibuprofenBody 9
    (by decide) amoxicillinRow (by decide) (by decide) (by decide) (by decide)
  exact ⟨h.1, h.2.1, h.2.2.1, h.2.2.2.2.2.1, h.2.2.2.2.2.2.1, h.2.2.2.2.2.2.2.1⟩

/-- C10: the POST date check compares with strict JS `>`: a body whose two
dates are the same parseable day is accepted (201); and the concrete body
with non-empty unparseable dates passes the presence check, passes the date
check (`NaN` comparisons are false), and fails at the INSERT with 500 and an
unchanged store, not with a 400 validation error. -/
theorem post_date_check_strict_and_nan (s : Store) (b : RequestBody) (now x : Nat) :
    (requiredMissing b = false →
      parseIsoDate (reqField b.startDate) = some x →
      reqField b.endDate = reqField b.startDate →
      (postRecord s b now).1.status = 201) ∧
    (requiredMissing unparsableDatesBody = false ∧
     jsDateGt (reqField unparsableDatesBody.startDate)
       (reqField unparsableDatesBody.endDate) = false ∧
     (postRecord sampleStore unparsableDatesBody 0).1.status = 500 ∧
     (postRecord sampleStore unparsableDatesBody 0).2 = sampleStore) := by
  constructor
  · intro hm hx he
    have hgt : jsDateGt (reqField b.startDate) (reqField b.endDate) = false := by
      rw [jsDateGt, he, hx]
      simp
    have hvs : validDate (reqField b.startDate) = true := by
      rw [validDate, hx]
      rfl
    have hve : validDate (reqField b.endDate) = true := by
      rw [validDate, he, hx]
      rfl
    rw [postRecord_created hm hgt hvs hve]
    rfl
  · exact ⟨by decide, by decide, by decide, by decide⟩

theorem post_date_check_strict_and_nan_witness :
    (postRecord sampleStore equalDatesBody 3).1.status = 201 :=
  (post_date_check_strict_and_nan sampleStore equalDatesBody 3 20241015).1
    (by decide) (by decide) (by decide)

/-- C4 (counterexample): the search term is a SQL LIKE pattern, so its
metacharacters are wildcards, not literals: searching "A%n" returns the
seeded Aspirin row although "a%n" does not occur case-insensitively as a
substring of any of its fields. -/
theorem search_substring_claim_false :
    aspirinRow ∈ searchByTerm sampleStore ("A%n") ∧
    specRowMatches aspirinRow ("A%n") = false := by decide

/-- C4 (amended): for a term without LIKE metacharacters (`%`, `_`, `\`),
the search returns exactly the rows in which the term occurs
case-insensitively as a substring of medicine, dosage, condition or the
startDate text (letterless, as a date rendering always is), ordered by
startDate descending; searching "aspirin" on the seeded fixture returns
exactly the Aspirin row. -/
theorem search_substring_amended (s : Store) (term : String)
    (hw : wildcardFree term.toList = true)
    (hd : ∀ r ∈ s.rows, letterless r.startDate = true) :
    List.Perm (searchByTerm s term)
      (s.rows.filter (fun r => specRowMatches r term)) ∧
    (searchByTerm s term).Pairwise (fun a b => startDateDesc a b = true) ∧
    searchByTerm sampleStore ("aspirin") = [aspirinRow] := by
  have hwl : wildcardFree (lowerList term) = true := wildcardFree_lowerList hw
  have hfield : ∀ f : String, ilikeContains f term = specContainsCI f term := by
    intro f
    apply bool_eq_of_iff
    rw [show ilikeContains f term =
        likeMatch ('%' :: (lowerList term ++ ['%'])) (lowerList f) from rfl,
      specContainsCI, decide_eq_true_iff]
    exact likeMatch_contains_iff hwl
  have hpoint : ∀ r ∈ s.rows, rowMatches r term = specRowMatches r term := by
    intro r hr
    have hlet : ∀ c ∈ r.startDate.toList, c.isAlpha = false := by
      have h := hd r hr
      rw [letterless, List.all_eq_true] at h
      intro c hc
      simpa using h c hc
    have hdate : likeContains r.startDate term = specContainsCI r.startDate term := by
      apply bool_eq_of_iff
      rw [show likeContains r.startDate term =
          likeMatch ('%' :: (term.toList ++ ['%'])) r.startDate.toList from rfl,
        specContainsCI, decide_eq_true_iff, lowerList, lowerList,
        likeMatch_contains_iff hw]
      exact (infix_map_toLower_iff hlet).symm
    rw [rowMatches, specRowMatches, hfield r.medicine, hfield r.dosage, hdate]
    cases hc : r.condition with
    | none => rfl
    | some c => simp only [hfield c]
  refine ⟨?_, ?_, by decide⟩
  · have hfe : s.rows.filter (fun r => rowMatches r term) =
        s.rows.filter (fun r => specRowMatches r term) :=
      List.filter_congr hpoint
    rw [searchByTerm, hfe]
    exact sortByDateDesc_perm _
  · rw [searchByTerm]
    exact pairwise_sortByDateDesc _

theorem search_substring_amended_witness :
    List.Perm (searchByTerm sampleStore ("aspirin"))
      (sampleStore.rows.filter (fun r => specRowMatches r ("aspirin"))) ∧
    searchByTerm sampleStore ("aspirin") = [aspirinRow] := by
  have h := search_substring_amended sampleStore ("aspirin") (by decide) (by decide)
  exact ⟨h.1, h.2.2⟩

/-- C9: `escapeHtml` output never contains a raw `<` or `>` (so no markup can
be introduced) and decodes back to the original text (so the record renders as
literal text); concretely, a medicine of `<script>x</script>` is inserted into
the record-card title as the escaped entity text. -/
theorem client_escapes_user_fields :
    (∀ t : String, '<' ∉ (escapeHtml t).toList ∧ '>' ∉ (escapeHtml t).toList ∧
      unescapeHtml (escapeHtml t) = t) ∧
    escapeHtml (scriptRecord.medicine) = "&lt;script&gt;x&lt;/script&gt;" ∧
    recordTitleHtml scriptRecord =
      "<div class=\"record-title\">&lt;script&gt;x&lt;/script&gt;</div>" :=
  ⟨escapeHtml_no_markup_and_roundtrip, by decide, by decide⟩

end DBM
